import Mathlib

/-!
# Verification of `examples/timeseries/timeseries_anomaly_detection.ipynb`

A shallow embedding of the notebook's array arithmetic:

* `create_sequences` — the sliding-window construction (`np.expand_dims` makes
  each scalar a length-1 feature vector, giving a 3-D tensor);
* `mae` / `maeLosses` — `np.mean(np.abs(pred - x), axis=1)`, the per-sample
  mean-absolute-error reconstruction losses;
* `npMax` — `np.max` on a 1-D array (`none` on the empty array, where numpy raises);
* `anomalies` — the elementwise `test_mae_loss > threshold` mask;
* `anomalous_data_indices` — the point-level reduction loop over
  `range(TIME_STEPS - 1, len(test_value) - TIME_STEPS + 1)`;
* `normalize` / `normalize_test` — the mean/std normalisation cells (over `ℝ`,
  since `np.std` takes a square root);
* `runScript` — the notebook's top-to-bottom pipeline with its fallible
  external steps (HTTP fetches, `model.fit`, `model.predict`) made explicit
  in the `Except` monad.

Numpy's float arithmetic is modelled by exact arithmetic (`ℚ` for the
claims, `ℝ` where a square root is required).
-/

set_option maxRecDepth 10000

namespace TimeseriesAD

/-- Python's `range(a, b)` over integers: `[a, a+1, ..., b-1]`, empty when `b ≤ a`. -/
def pythonRange (a b : ℤ) : List ℤ :=
  (List.range (b - a).toNat).map (fun (k : ℕ) => a + (k : ℤ))

/-- `TIME_STEPS = 288` from the notebook. -/
def TIME_STEPS : ℕ := 288

/-- `create_sequences(values, time_steps)`:
`output.append(values[i : (i + time_steps)])` for `i in range(len(values) - time_steps)`,
then `np.expand_dims(output, axis=2)` turns each scalar into a length-1 feature
vector, giving a (window count × window length × 1) tensor. -/
def create_sequences {α : Type} (values : List α) (time_steps : ℕ) : List (List (List α)) :=
  (List.range (values.length - time_steps)).map
    (fun i => ((values.drop i).take time_steps).map (fun v => [v]))

/-- One sample of `np.mean(np.abs(pred - x), axis=1)` (the length-1 feature axis
flattened away): the mean absolute error between a predicted window and the
input window, the mean being taken over the window axis of `x`. -/
def mae {α : Type} [LinearOrderedField α] (pred x : List α) : α :=
  (List.zipWith (fun a b => |a - b|) pred x).sum / (x.length : α)

/-- The per-sample MAE losses of a batch, i.e. `np.mean(np.abs(preds - xs), axis=1)`
(`train_mae_loss` and `test_mae_loss` in the notebook). -/
def maeLosses {α : Type} [LinearOrderedField α] (preds xs : List (List α)) : List α :=
  List.zipWith mae preds xs

/-- `np.max` of a 1-D array: numpy raises on the empty array (modelled as `none`),
otherwise the maximum of the entries.  `threshold = np.max(train_mae_loss)`. -/
def npMax {α : Type} [LinearOrder α] : List α → Option α
  | [] => none
  | x :: xs => some (xs.foldl max x)

/-- `anomalies = (test_mae_loss > threshold).tolist()`: the elementwise strict
comparison of the per-sample losses with the threshold. -/
def anomalies {α : Type} [LinearOrder α] (losses : List α) (threshold : α) : List Bool :=
  losses.map (fun l => decide (threshold < l))

/-- The point-level reduction cell:
```
anomalous_data_indices = []
for data_idx in range(TIME_STEPS - 1, len(test_value) - TIME_STEPS + 1):
    time_series = range(data_idx - TIME_STEPS + 1, data_idx)
    if all([anomalies[j] for j in time_series]):
        anomalous_data_indices.append(data_idx)
```
`n` is `len(test_value)`.  The inner indices `j` are provably nonnegative and
within `anomalies` in the script's use, so Python's `anomalies[j]` is modelled
by `getD (with an arbitrary default)`. -/
def anomalous_data_indices (anomalies : List Bool) (n : ℕ) : List ℤ :=
  (pythonRange ((TIME_STEPS : ℤ) - 1) ((n : ℤ) - (TIME_STEPS : ℤ) + 1)).filter
    (fun data_idx =>
      ((pythonRange (data_idx - (TIME_STEPS : ℤ) + 1) data_idx).map
        (fun j => anomalies.getD j.toNat false)).all id)

section RealCells

/-- `np.mean(values)` on a 1-D real array. -/
noncomputable def npMean (values : List ℝ) : ℝ := values.sum / (values.length : ℝ)

/-- `np.std(values)`: the population standard deviation
`sqrt(mean((v - mean(values))^2))`. -/
noncomputable def npStd (values : List ℝ) : ℝ :=
  Real.sqrt ((values.map (fun v => (v - npMean values) ^ 2)).sum / (values.length : ℝ))

/-- `normalize(values)` from the notebook: subtract the mean, then divide by the
standard deviation *of the centered values*; returns the normalised array
together with the mean and that standard deviation. -/
noncomputable def normalize (values : List ℝ) : List ℝ × ℝ × ℝ :=
  let mean := npMean values
  let centered := values.map (fun v => v - mean)
  let std := npStd centered
  (centered.map (fun v => v / std), mean, std)

/-- `normalize_test(values, mean, std)`: subtract `mean`, then divide by `std`. -/
noncomputable def normalize_test (values : List ℝ) (mean std : ℝ) : List ℝ :=
  (values.map (fun v => v - mean)).map (fun v => v / std)

end RealCells

-- Sanity checks on tiny inputs (kept as `example`s, not part of any claim).
example : create_sequences ([1, 2, 3, 4] : List ℚ) 2 = [[[1], [2]], [[2], [3]]] := by
  decide

example : create_sequences ([1, 2, 3] : List ℚ) 3 = [] := by decide

example : mae ([1, 3] : List ℚ) [2, 5] = 3 / 2 := by norm_num [mae, List.zipWith]

example : npMax ([1, 5, 3] : List ℚ) = some 5 := by decide

example : anomalies ([1, 3, 2] : List ℚ) 2 = [false, true, false] := by decide

example : pythonRange 3 6 = [3, 4, 5] := by decide

example : pythonRange 3 3 = [] := by decide

/-! ## Helper lemmas -/

theorem getD_map_lt {α β : Type} (f : α → β) (l : List α) (i : ℕ) (d : β) (d₀ : α)
    (h : i < l.length) : (l.map f).getD i d = f (l.getD i d₀) := by
  rw [List.getD_eq_getElem (l.map f) d (by simpa using h), List.getD_eq_getElem l d₀ h,
    List.getElem_map]

theorem getD_range {n i : ℕ} (h : i < n) (d : ℕ) : (List.range n).getD i d = i := by
  rw [List.getD_eq_getElem _ _ (by simpa using h), List.getElem_range]

theorem getD_zipWith_lt {α β γ : Type} (f : α → β → γ) (l₁ : List α) (l₂ : List β) (i : ℕ)
    (d : γ) (d₁ : α) (d₂ : β) (h₁ : i < l₁.length) (h₂ : i < l₂.length) :
    (List.zipWith f l₁ l₂).getD i d = f (l₁.getD i d₁) (l₂.getD i d₂) := by
  induction l₁ generalizing l₂ i with
  | nil => simp at h₁
  | cons a tl ih =>
    match l₂, h₂ with
    | b :: tl₂, h₂ =>
      match i with
      | 0 => rfl
      | i + 1 =>
        simp only [List.zipWith_cons_cons, List.getD_cons_succ]
        exact ih tl₂ i (by simpa using h₁) (by simpa using h₂)

theorem le_foldl_max (xs : List ℚ) (a : ℚ) : a ≤ xs.foldl max a := by
  induction xs generalizing a with
  | nil => exact le_refl a
  | cons x tl ih => exact le_trans (le_max_left a x) (ih (max a x))

theorem mem_le_foldl_max (xs : List ℚ) (a : ℚ) : ∀ l ∈ xs, l ≤ xs.foldl max a := by
  induction xs generalizing a with
  | nil => intro l hl; simp at hl
  | cons x tl ih =>
    intro l hl
    rcases List.mem_cons.mp hl with rfl | h
    · exact le_trans (le_max_right a l) (le_foldl_max tl (max a l))
    · exact ih (max a x) l h

theorem foldl_max_mem (xs : List ℚ) (a : ℚ) : xs.foldl max a = a ∨ xs.foldl max a ∈ xs := by
  induction xs generalizing a with
  | nil => left; rfl
  | cons x tl ih =>
    rcases ih (max a x) with h | h
    · rcases max_choice a x with h' | h'
      · left; rw [List.foldl_cons, h, h']
      · right; rw [List.foldl_cons, h, h']; exact List.mem_cons_self x tl
    · right; exact List.mem_cons_of_mem x h

theorem npMax_le_and_mem (xs : List ℚ) (x : ℚ) :
    (∀ l ∈ x :: xs, l ≤ xs.foldl max x) ∧ xs.foldl max x ∈ x :: xs := by
  constructor
  · intro l hl
    rcases List.mem_cons.mp hl with rfl | hmem
    · exact le_foldl_max xs l
    · exact mem_le_foldl_max xs x l hmem
  · rcases foldl_max_mem xs x with h' | h'
    · rw [h']; exact List.mem_cons_self x xs
    · exact List.mem_cons_of_mem x h'

theorem mem_pythonRange {a b i : ℤ} (h : i ∈ pythonRange a b) : a ≤ i ∧ i < b := by
  unfold pythonRange at h
  obtain ⟨k, hk, rfl⟩ := List.mem_map.mp h
  rw [List.mem_range] at hk
  omega

theorem pairwise_pythonRange (a b : ℤ) : (pythonRange a b).Pairwise (· < ·) := by
  unfold pythonRange
  exact (List.pairwise_lt_range _).map _ (fun x y hxy => by omega)

theorem sum_zipWith_abs_eq (pred x : List ℚ) (h : pred.length = x.length) :
    (List.zipWith (fun a b => |a - b|) pred x).sum =
      ∑ j ∈ Finset.range x.length, |pred.getD j 0 - x.getD j 0| := by
  induction x generalizing pred with
  | nil =>
    match pred, h with
    | [], _ => simp
  | cons b xs ih =>
    match pred, h with
    | a :: ps, h =>
      have h' : ps.length = xs.length := by simpa using h
      rw [List.zipWith_cons_cons, List.sum_cons, List.length_cons, Finset.sum_range_succ',
        ih ps h']
      simp [List.getD_cons_succ, List.getD_cons_zero, add_comm]

/-! ## Claims -/

/-- C2: for every value sequence with `time_steps ≤ length`, every window that
`create_sequences` produces is exactly the contiguous slice
`values[i : i + time_steps]` (each scalar wrapped as a length-1 feature vector),
that slice has length `time_steps`, and every feature vector has length 1 —
i.e. the result is a (window count × window length × 1 feature) tensor. -/
theorem create_sequences_window_is_slice (values : List ℚ) (time_steps i : ℕ)
    (hT : time_steps ≤ values.length) (hi : i < (create_sequences values time_steps).length) :
    (create_sequences values time_steps).getD i [] =
      ((values.drop i).take time_steps).map (fun v => [v]) ∧
    ((values.drop i).take time_steps).length = time_steps ∧
    ∀ f ∈ (create_sequences values time_steps).getD i [], f.length = 1 := by
  have hlen : (create_sequences values time_steps).length = values.length - time_steps := by
    simp [create_sequences]
  have hi' : i < values.length - time_steps := hlen ▸ hi
  have hwin : (create_sequences values time_steps).getD i [] =
      ((values.drop i).take time_steps).map (fun v => [v]) := by
    unfold create_sequences
    rw [getD_map_lt _ _ _ _ 0 (by simpa using hi'), getD_range hi']
  refine ⟨hwin, ?_, ?_⟩
  · rw [List.length_take, List.length_drop]
    omega
  · intro f hf
    rw [hwin] at hf
    obtain ⟨v, _, rfl⟩ := List.mem_map.mp hf
    rfl

/-- Witness for C2 at `values = [1, 2, 3]`, `time_steps = 2`, `i = 0`. -/
theorem create_sequences_window_is_slice_witness :
    (2 ≤ ([1, 2, 3] : List ℚ).length ∧ 0 < (create_sequences ([1, 2, 3] : List ℚ) 2).length) ∧
    ((create_sequences ([1, 2, 3] : List ℚ) 2).getD 0 [] =
      ((([1, 2, 3] : List ℚ).drop 0).take 2).map (fun v => [v]) ∧
     ((([1, 2, 3] : List ℚ).drop 0).take 2).length = 2 ∧
     ∀ f ∈ (create_sequences ([1, 2, 3] : List ℚ) 2).getD 0 [], f.length = 1) :=
  ⟨⟨by decide, by decide⟩, create_sequences_window_is_slice [1, 2, 3] 2 0 (by decide) (by decide)⟩

/-- C7: for `length ≥ time_steps + 1`, `create_sequences` produces exactly
`length - time_steps` windows (start indices `0 .. length - time_steps - 1`):
the final valid slice starting at `length - time_steps` is never produced, every
window's index span ends strictly before the last position, and every value
appearing in any window comes from the first `length - 1` values. -/
theorem create_sequences_drops_last_window (values : List ℚ) (time_steps : ℕ)
    (h : time_steps + 1 ≤ values.length) :
    (create_sequences values time_steps).length = values.length - time_steps ∧
    (∀ i < (create_sequences values time_steps).length,
      i ≤ values.length - time_steps - 1 ∧ i + time_steps ≤ values.length - 1) ∧
    ∀ w ∈ create_sequences values time_steps, ∀ f ∈ w, ∀ v ∈ f,
      v ∈ values.take (values.length - 1) := by
  have hlen : (create_sequences values time_steps).length = values.length - time_steps := by
    simp [create_sequences]
  refine ⟨hlen, ?_, ?_⟩
  · intro i hi
    rw [hlen] at hi
    omega
  · intro w hw f hf v hv
    obtain ⟨i, himem, rfl⟩ := List.mem_map.mp hw
    have hi : i < values.length - time_steps := List.mem_range.mp himem
    obtain ⟨u, hu, rfl⟩ := List.mem_map.mp hf
    have hv' : v = u := by simpa using hv
    subst hv'
    have hslice : (values.drop i).take time_steps = (values.take (i + time_steps)).drop i := by
      rw [List.drop_take]
      congr 1
      omega
    rw [hslice] at hu
    have hu' : v ∈ values.take (i + time_steps) := List.drop_subset _ _ hu
    have htk : values.take (i + time_steps) =
        (values.take (values.length - 1)).take (i + time_steps) := by
      rw [List.take_take]
      congr 1
      omega
    rw [htk] at hu'
    exact List.take_subset _ _ hu'

/-- Witness for C7 at `values = [1, 2, 3]`, `time_steps = 1`. -/
theorem create_sequences_drops_last_window_witness :
    (1 + 1 ≤ ([1, 2, 3] : List ℚ).length) ∧
    ((create_sequences ([1, 2, 3] : List ℚ) 1).length = ([1, 2, 3] : List ℚ).length - 1 ∧
     (∀ i < (create_sequences ([1, 2, 3] : List ℚ) 1).length,
       i ≤ ([1, 2, 3] : List ℚ).length - 1 - 1 ∧ i + 1 ≤ ([1, 2, 3] : List ℚ).length - 1) ∧
     ∀ w ∈ create_sequences ([1, 2, 3] : List ℚ) 1, ∀ f ∈ w, ∀ v ∈ f,
       v ∈ ([1, 2, 3] : List ℚ).take (([1, 2, 3] : List ℚ).length - 1)) :=
  ⟨by decide, create_sequences_drops_last_window [1, 2, 3] 1 (by decide)⟩

/-- C3: `threshold = np.max(train_mae_loss)` is the maximum of the per-sample
training losses: it bounds every training loss from above and is itself one of
the training losses (for a non-empty training set). -/
theorem threshold_is_max_training_loss (train_mae_loss : List ℚ) (h : train_mae_loss ≠ []) :
    ∃ threshold, npMax train_mae_loss = some threshold ∧
      (∀ l ∈ train_mae_loss, l ≤ threshold) ∧ threshold ∈ train_mae_loss := by
  cases train_mae_loss with
  | nil => exact absurd rfl h
  | cons x xs =>
    obtain ⟨hle, hmem⟩ := npMax_le_and_mem xs x
    exact ⟨xs.foldl max x, rfl, hle, hmem⟩

/-- Witness for C3 at `train_mae_loss = [1, 3, 2]`. -/
theorem threshold_is_max_training_loss_witness :
    ([1, 3, 2] : List ℚ) ≠ [] ∧
    ∃ threshold, npMax ([1, 3, 2] : List ℚ) = some threshold ∧
      (∀ l ∈ ([1, 3, 2] : List ℚ), l ≤ threshold) ∧ threshold ∈ ([1, 3, 2] : List ℚ) :=
  ⟨by decide, threshold_is_max_training_loss [1, 3, 2] (by decide)⟩

/-- C4: with the threshold computed (beforehand) from the training losses as
`np.max(train_mae_loss)`, a test window is classified anomalous iff its MAE
loss is strictly greater than that threshold — the mask is
`test_mae_loss > threshold` elementwise and depends on nothing else. -/
theorem anomalies_iff_loss_gt_threshold (train_mae_loss test_mae_loss : List ℚ)
    (threshold : ℚ) (hthr : npMax train_mae_loss = some threshold)
    (i : ℕ) (hi : i < test_mae_loss.length) :
    (anomalies test_mae_loss threshold).length = test_mae_loss.length ∧
    ((anomalies test_mae_loss threshold).getD i false = true ↔
      threshold < test_mae_loss.getD i 0) := by
  constructor
  · simp [anomalies]
  · unfold anomalies
    rw [getD_map_lt _ _ _ _ 0 hi]
    simp

/-- Witness for C4 at `train_mae_loss = [1, 2]` (threshold 2), `test_mae_loss = [3, 1]`. -/
theorem anomalies_iff_loss_gt_threshold_witness :
    (npMax ([1, 2] : List ℚ) = some 2 ∧ 0 < ([3, 1] : List ℚ).length) ∧
    ((anomalies ([3, 1] : List ℚ) 2).length = ([3, 1] : List ℚ).length ∧
     ((anomalies ([3, 1] : List ℚ) 2).getD 0 false = true ↔
       (2 : ℚ) < ([3, 1] : List ℚ).getD 0 0)) :=
  ⟨⟨by decide, by decide⟩, anomalies_iff_loss_gt_threshold [1, 2] [3, 1] 2 (by decide) 0 (by decide)⟩

/-- C5: the per-sample reconstruction error is the mean absolute error: entry `i`
of `np.mean(np.abs(preds - xs), axis=1)` is the mean, over the positions of
window `i`, of the absolute difference between prediction and input. -/
theorem mae_loss_is_mean_abs_error (preds xs : List (List ℚ)) (i : ℕ)
    (hi : i < preds.length) (hi' : i < xs.length)
    (hlen : (preds.getD i []).length = (xs.getD i []).length) :
    (maeLosses preds xs).getD i 0 =
      (∑ j ∈ Finset.range (xs.getD i []).length,
        |(preds.getD i []).getD j 0 - (xs.getD i []).getD j 0|) /
        ((xs.getD i []).length : ℚ) := by
  have hentry : (maeLosses preds xs).getD i 0 = mae (preds.getD i []) (xs.getD i []) := by
    unfold maeLosses
    exact getD_zipWith_lt mae preds xs i 0 [] [] hi hi'
  rw [hentry]
  unfold mae
  rw [sum_zipWith_abs_eq _ _ hlen]

/-- Witness for C5 at `preds = [[1, 3]]`, `xs = [[2, 5]]`, `i = 0`. -/
theorem mae_loss_is_mean_abs_error_witness :
    (0 < ([[1, 3]] : List (List ℚ)).length ∧ 0 < ([[2, 5]] : List (List ℚ)).length ∧
     (([[1, 3]] : List (List ℚ)).getD 0 []).length =
       (([[2, 5]] : List (List ℚ)).getD 0 []).length) ∧
    (maeLosses ([[1, 3]] : List (List ℚ)) [[2, 5]]).getD 0 0 =
      (∑ j ∈ Finset.range (([[2, 5]] : List (List ℚ)).getD 0 []).length,
        |(([[1, 3]] : List (List ℚ)).getD 0 []).getD j 0 -
          (([[2, 5]] : List (List ℚ)).getD 0 []).getD j 0|) /
        ((([[2, 5]] : List (List ℚ)).getD 0 []).length : ℚ) :=
  ⟨⟨by decide, by decide, by decide⟩,
    mae_loss_is_mean_abs_error [[1, 3]] [[2, 5]] 0 (by decide) (by decide) (by decide)⟩

/-- C6: since the threshold is the maximum of the training losses and the
anomaly rule is a strict comparison, classifying the training losses themselves
flags nothing: no training loss exceeds the threshold and the training mask is
all-`false`. -/
theorem training_losses_never_flagged (train_mae_loss : List ℚ) (threshold : ℚ)
    (h : npMax train_mae_loss = some threshold) :
    (∀ l ∈ train_mae_loss, ¬ threshold < l) ∧
    ∀ b ∈ anomalies train_mae_loss threshold, b = false := by
  have hle : ∀ l ∈ train_mae_loss, l ≤ threshold := by
    cases train_mae_loss with
    | nil => simp [npMax] at h
    | cons x xs =>
      have hx : xs.foldl max x = threshold := by simpa [npMax] using h
      exact hx ▸ (npMax_le_and_mem xs x).1
  refine ⟨fun l hl => not_lt.mpr (hle l hl), ?_⟩
  intro b hb
  unfold anomalies at hb
  obtain ⟨l, hl, rfl⟩ := List.mem_map.mp hb
  simpa using not_lt.mpr (hle l hl)

/-- Witness for C6 at `train_mae_loss = [1, 2]` (threshold 2). -/
theorem training_losses_never_flagged_witness :
    npMax ([1, 2] : List ℚ) = some 2 ∧
    ((∀ l ∈ ([1, 2] : List ℚ), ¬ (2 : ℚ) < l) ∧
     ∀ b ∈ anomalies ([1, 2] : List ℚ) 2, b = false) :=
  ⟨by decide, training_losses_never_flagged [1, 2] 2 (by decide)⟩

/-- C8: `anomalous_data_indices` is strictly increasing and each element `i`
satisfies `TIME_STEPS - 1 ≤ i ≤ n - TIME_STEPS`; in particular each element is
nonnegative and a valid row index into the `n`-row test dataframe used by the
`df_daily_jumpsup.iloc[anomalous_data_indices, :]` overlay. -/
theorem anomalous_data_indices_sorted_and_in_range (mask : List Bool) (n : ℕ) :
    (anomalous_data_indices mask n).Pairwise (· < ·) ∧
    ∀ i ∈ anomalous_data_indices mask n,
      (TIME_STEPS : ℤ) - 1 ≤ i ∧ i ≤ (n : ℤ) - (TIME_STEPS : ℤ) ∧ 0 ≤ i ∧ i.toNat < n := by
  constructor
  · exact (pairwise_pythonRange _ _).filter _
  · intro i hi
    have hmem : i ∈ pythonRange ((TIME_STEPS : ℤ) - 1) ((n : ℤ) - (TIME_STEPS : ℤ) + 1) :=
      (List.mem_filter.mp hi).1
    have hbounds := mem_pythonRange hmem
    have hT : (TIME_STEPS : ℤ) = 288 := rfl
    omega

/-- C1 (code bug, demonstrated on the code): with `TIME_STEPS = 288` and a test
series of length `n = 576` the per-window mask has length `n - TIME_STEPS = 288`
(windows `0 .. 287`).  Take the mask that is `true` on windows `0 .. 286` and
`false` on window `287`.  Window `287` exists (`287 < 576 - TIME_STEPS`) and its
index span `287 .. 574` covers data point `287`, yet the reduction loop — whose
inner `range(data_idx - TIME_STEPS + 1, data_idx)` excludes `data_idx` itself —
never consults it and flags point `287` anyway, contradicting the
"all windows covering this point are anomalous" rule (and the cell's own
comment `# data i is an anomaly if samples [(i - timesteps + 1) to (i)] are
anomalies`, whose inclusive range contains `i`). -/
theorem anomalous_data_indices_skips_covering_window :
    anomalous_data_indices (List.replicate 287 true ++ [false]) 576 = [287] ∧
    (List.replicate 287 true ++ [false]).getD 287 false = false ∧
    (List.replicate 287 true ++ [false]).length = 576 - TIME_STEPS ∧
    287 < 576 - TIME_STEPS :=
  ⟨by decide, by decide, by decide, by decide⟩

/-! ## Normalization (C9) -/

theorem sum_map_sub_const (l : List ℝ) (c : ℝ) :
    (l.map (fun v => v - c)).sum = l.sum - (l.length : ℝ) * c := by
  induction l with
  | nil => simp
  | cons a tl ih =>
    simp only [List.map_cons, List.sum_cons, ih, List.length_cons]
    push_cast
    ring

theorem npMean_centered_eq_zero (l : List ℝ) (h : l ≠ []) :
    npMean (l.map (fun v => v - npMean l)) = 0 := by
  have hlen : 0 < l.length := List.length_pos.mpr h
  have hn : (l.length : ℝ) ≠ 0 := Nat.cast_ne_zero.mpr (by omega)
  simp only [npMean, List.length_map, sum_map_sub_const]
  rw [mul_div_cancel₀ _ hn]
  simp

theorem npStd_centered (l : List ℝ) (h : l ≠ []) :
    npStd (l.map (fun v => v - npMean l)) = npStd l := by
  simp only [npStd, npMean_centered_eq_zero l h, List.map_map, List.length_map,
    Function.comp, sub_zero]
  rfl

theorem npStd_pos_of_two_ne (l : List ℝ) (a b : ℝ) (ha : a ∈ l) (hb : b ∈ l)
    (hab : a ≠ b) : 0 < npStd l := by
  have hlen : 0 < l.length := List.length_pos.mpr (by rintro rfl; simp at ha)
  have hex : ∃ c ∈ l, c ≠ npMean l := by
    by_cases hA : a = npMean l
    · exact ⟨b, hb, fun hbm => hab (hA.trans hbm.symm)⟩
    · exact ⟨a, ha, hA⟩
  obtain ⟨c, hc, hcne⟩ := hex
  unfold npStd
  apply Real.sqrt_pos.mpr
  apply div_pos
  · have hmem : (c - npMean l) ^ 2 ∈ l.map (fun v => (v - npMean l) ^ 2) :=
      List.mem_map_of_mem _ hc
    have hpos : 0 < (c - npMean l) ^ 2 := pow_two_pos_of_ne_zero (sub_ne_zero.mpr hcne)
    have hnonneg : ∀ x ∈ l.map (fun v => (v - npMean l) ^ 2), 0 ≤ x := by
      intro x hx
      obtain ⟨v, _, rfl⟩ := List.mem_map.mp hx
      positivity
    exact lt_of_lt_of_le hpos (List.single_le_sum hnonneg _ hmem)
  · exact_mod_cast hlen

/-- C9: under the precondition that the training values are not all equal,
`normalize` returns `((x - mean) / std, mean, std)` where `mean`/`std` are the
training mean and (nonzero) training standard deviation — in particular the std
taken after centering equals the std of the raw values — and `normalize_test`
returns `(x - mean) / std` for the given mean and std.  For constant training
input the division by zero is unguarded (nothing in the code checks `std`). -/
theorem normalize_divides_by_training_std (values : List ℝ) (m s : ℝ)
    (h : ∃ a ∈ values, ∃ b ∈ values, a ≠ b) :
    normalize values =
      (values.map (fun v => (v - npMean values) / npStd values), npMean values,
        npStd values) ∧
    npStd values ≠ 0 ∧
    normalize_test values m s = values.map (fun v => (v - m) / s) := by
  obtain ⟨a, ha, b, hb, hab⟩ := h
  have hne : values ≠ [] := by rintro rfl; simp at ha
  have hstd := npStd_centered values hne
  refine ⟨?_, (npStd_pos_of_two_ne values a b ha hb hab).ne', ?_⟩
  · simp only [normalize]
    rw [hstd, List.map_map]
    rfl
  · unfold normalize_test
    rw [List.map_map]
    rfl

/-- Witness for C9 at `values = [0, 2]`, `m = s = 1`. -/
theorem normalize_divides_by_training_std_witness :
    (∃ a ∈ ([0, 2] : List ℝ), ∃ b ∈ ([0, 2] : List ℝ), a ≠ b) ∧
    (normalize [0, 2] =
      (([0, 2] : List ℝ).map (fun v => (v - npMean [0, 2]) / npStd [0, 2]), npMean [0, 2],
        npStd [0, 2]) ∧
     npStd ([0, 2] : List ℝ) ≠ 0 ∧
     normalize_test [0, 2] 1 1 = ([0, 2] : List ℝ).map (fun v => (v - 1) / 1)) := by
  have h : ∃ a ∈ ([0, 2] : List ℝ), ∃ b ∈ ([0, 2] : List ℝ), a ≠ b :=
    ⟨0, by simp, 2, by simp, by norm_num⟩
  exact ⟨h, normalize_divides_by_training_std [0, 2] 1 1 h⟩

/-! ## The top-to-bottom script (C10) -/

/-- The notebook's single top-to-bottom procedural script, cell by cell, with
its fallible external steps made explicit in the `Except` monad: the two
`pd.read_csv` HTTP fetches (modelled as the `value` columns they deliver),
`model.fit`, the two `model.predict` calls, and `np.max` on a possibly empty
loss array (`emptyErr`).  Each step runs exactly once, in program order, and
nothing catches an error: `Except.bind` stops at the first failure.
`List.flatten` flattens the length-1 feature axis ahead of the axis-1 mean. -/
noncomputable def runScript {E M : Type}
    (fetchTrain fetchTest : Except E (List ℝ))
    (fit : List (List (List ℝ)) → Except E M)
    (predict : M → List (List (List ℝ)) → Except E (List (List (List ℝ))))
    (emptyErr : E) : Except E (List ℤ) := do
  let df_small_noise ← fetchTrain
  let df_daily_jumpsup ← fetchTest
  let norm := normalize df_small_noise
  let training_value := norm.1
  let training_mean := norm.2.1
  let training_std := norm.2.2
  let x_train := create_sequences training_value TIME_STEPS
  let model ← fit x_train
  let x_train_pred ← predict model x_train
  let train_mae_loss := maeLosses (x_train_pred.map List.flatten) (x_train.map List.flatten)
  let threshold ← match npMax train_mae_loss with
    | some t => Except.ok t
    | none => Except.error emptyErr
  let test_value := normalize_test df_daily_jumpsup training_mean training_std
  let x_test := create_sequences test_value TIME_STEPS
  let x_test_pred ← predict model x_test
  let test_mae_loss := maeLosses (x_test_pred.map List.flatten) (x_test.map List.flatten)
  let anoms := anomalies test_mae_loss threshold
  return anomalous_data_indices anoms test_value.length

/-- C10: no step of the script catches, retries, or recovers from an error:
whichever fallible step fails first (training fetch, test fetch, `fit`,
`predict`, or `np.max` of an empty loss array), its error is the whole
script's result, every later step is skipped, and no output is produced. -/
theorem runScript_propagates_failures {E M : Type}
    (fetchTest : Except E (List ℝ))
    (fit : List (List (List ℝ)) → Except E M)
    (predict : M → List (List (List ℝ)) → Except E (List (List (List ℝ))))
    (emptyErr e : E) (vTrain vTest : List ℝ) (mdl : M) :
    runScript (Except.error e) fetchTest fit predict emptyErr = Except.error e ∧
    runScript (Except.ok vTrain) (Except.error e) fit predict emptyErr = Except.error e ∧
    ((∀ x, fit x = Except.error e) →
      runScript (Except.ok vTrain) (Except.ok vTest) fit predict emptyErr = Except.error e) ∧
    ((∀ x, fit x = Except.ok mdl) → (∀ mo x, predict mo x = Except.error e) →
      runScript (Except.ok vTrain) (Except.ok vTest) fit predict emptyErr = Except.error e) ∧
    ((∀ x, fit x = Except.ok mdl) → (∀ mo x, predict mo x = Except.ok []) →
      runScript (Except.ok vTrain) (Except.ok vTest) fit predict emptyErr =
        Except.error emptyErr) := by
  refine ⟨rfl, rfl, ?_, ?_, ?_⟩
  · intro hfit
    simp only [runScript, hfit]
    rfl
  · intro hfit hpred
    simp only [runScript, hfit, hpred]
    rfl
  · intro hfit hpred
    simp only [runScript, hfit, hpred]
    rfl

/-- Witness for C10: a concrete run in which both fetches, `fit` and `predict`
succeed but `predict` returns the empty batch, so `np.max` of the empty loss
array is the first failure and the script stops with `emptyErr = 5`. -/
theorem runScript_propagates_failures_witness :
    runScript (Except.ok ([] : List ℝ)) (Except.ok ([] : List ℝ))
      (fun _ => (Except.ok () : Except ℕ Unit)) (fun _ _ => Except.ok []) 5 =
      Except.error 5 :=
  (runScript_propagates_failures (Except.ok ([] : List ℝ))
    (fun _ => (Except.ok () : Except ℕ Unit)) (fun _ _ => Except.ok []) 5 7 [] [] ()).2.2.2.2
    (fun _ => rfl) (fun _ _ => rfl)

end TimeseriesAD
